import Mathlib

/-!
Verification development for the chunked LLM task pipeline of the web2pdf
repository (src/lib/azure-openai.ts and src/app/api/typesetting-progress/route.ts).

Text is modelled as `List Char` (JS strings are sequences of UTF-16 code
units; all inputs of interest are plain characters).  JS `number` values
that are only ever integers here (token counts, lengths, percentages) are
modelled as `Nat`.  Fallible code (JS `throw`) is modelled with
`Except String`.
-/
/-- Whitespace recognised by JS `trim` / `\s` for the characters that occur
in this pipeline (space, tab, line feed, carriage return). -/
def isWsChar (c : Char) : Bool :=
  c = ' ' || c = '\t' || c = '\n' || c = '\r'

/-- JS `String.prototype.trim`: drop leading and trailing whitespace. -/
def trim (s : List Char) : List Char :=
  ((s.dropWhile isWsChar).reverse.dropWhile isWsChar).reverse

/-- `estimateTokens` from azure-openai.ts: `Math.ceil(text.length / 4)`. -/
def estimateTokens (s : List Char) : Nat :=
  (s.length + 3) / 4

/-- JS `content.split('\n\n')`: split on non-overlapping occurrences of the
blank-line separator, scanning left to right. -/
def splitParas : List Char → List (List Char)
  | [] => [[]]
  | '\n' :: '\n' :: rest => [] :: splitParas rest
  | c :: rest =>
    match splitParas rest with
    | [] => [[c]]
    | h :: t => (c :: h) :: t

/-- Join a list of pieces with the blank-line separator `"\n\n"`
(JS `Array.prototype.join('\n\n')`). -/
def jsep : List (List Char) → List Char
  | [] => []
  | [x] => x
  | x :: y :: t => x ++ '\n' :: '\n' :: jsep (y :: t)

/-- Loop state of the greedy paragraph-accumulation loop in `chunkContent`:
the chunks pushed so far, the current chunk being built, and its running
token counter. -/
structure ChunkState where
  chunks : List (List Char)
  cur : List Char
  tok : Nat

/-- One iteration of the `for (const paragraph of paragraphs)` loop of
`chunkContent`: if adding the paragraph would exceed the limit and the
current chunk is non-empty, push the trimmed current chunk and start a new
one; otherwise append the paragraph (with a blank-line separator when the
current chunk is non-empty). -/
def chunkStep (maxTokens : Nat) (st : ChunkState) (p : List Char) : ChunkState :=
  if st.tok + estimateTokens p > maxTokens ∧ st.cur ≠ [] then
    { chunks := st.chunks ++ [trim st.cur], cur := p, tok := estimateTokens p }
  else
    { chunks := st.chunks
      cur := st.cur ++ (if st.cur ≠ [] then ['\n', '\n'] else []) ++ p
      tok := st.tok + estimateTokens p }

/-- The trailing `if (currentChunk.trim()) chunks.push(currentChunk.trim())`
of `chunkContent`. -/
def finalChunks (st : ChunkState) : List (List Char) :=
  st.chunks ++ (if trim st.cur ≠ [] then [trim st.cur] else [])

/-- The hard character-count fallback of `chunkContent`:
`for (let i = 0; i < content.length; i += chunkSize) push(content.slice(i, i + chunkSize))`.
(For `size = 0` the JS loop would not terminate; the model returns `[]` in
that never-exercised configuration, since `chunkContent` always passes a
positive size for a positive token threshold.) -/
def charSplitAux : Nat → List Char → Nat → List (List Char)
  | 0, _, _ => []
  | fuel + 1, s, size =>
    if s = [] ∨ size = 0 then []
    else s.take size :: charSplitAux fuel (s.drop size) size

/-- See `charSplitAux`; the fuel `s.length` suffices because every round
consumes at least one character. -/
def charSplit (s : List Char) (size : Nat) : List (List Char) :=
  charSplitAux s.length s size

/-- `chunkContent` from azure-openai.ts: return the whole content as a single
chunk when it fits in `maxTokens` estimated tokens; otherwise accumulate the
non-blank paragraphs greedily; if that produced no chunks, fall back to a
hard character split of size `Math.floor(maxTokens * 3.5)`. -/
def chunkContent (content : List Char) (maxTokens : Nat) : List (List Char) :=
  if estimateTokens content ≤ maxTokens then [content]
  else
    let paragraphs := (splitParas content).filter (fun p => !(trim p).isEmpty)
    let st := paragraphs.foldl (chunkStep maxTokens) ⟨[], [], 0⟩
    let chunks := finalChunks st
    if chunks = [] then charSplit content (7 * maxTokens / 2) else chunks

example : chunkContent ("a\n\n\n\nb".data) 1 = ["a".data, "b".data] := by decide

example : chunkContent ("aaaa\n\nbbbb".data) 1 = ["aaaa".data, "bbbb".data] := by decide

example : chunkContent ("hi".data) 7000 = ["hi".data] := by decide

example : chunkContent [] 7000 = [[]] := by decide

example : chunkContent ("aaaaaaaaaaaa".data) 2 = ["aaaaaaaaaaaa".data] := by decide

example : chunkContent ("  \n\n \n\n  ".data) 1 = ["  \n".data, "\n \n".data, "\n  ".data] := by decide

/-! ### Whitespace-clean strings -/
/-- A string is clean when it is non-empty and carries no leading or trailing
whitespace, phrased through `dropWhile` so that `trim` is provably the
identity on it. -/
def Clean (s : List Char) : Prop :=
  s ≠ [] ∧ s.dropWhile isWsChar = s ∧ s.reverse.dropWhile isWsChar = s.reverse

instance (s : List Char) : Decidable (Clean s) := by
  unfold Clean
  infer_instance

/-! ### Claim C3: chunk size bounds -/
/-- Sum of the per-paragraph token estimates of a paragraph group — exactly
the quantity the greedy loop's `currentTokens` counter tracks. -/
def sumTok (g : List (List Char)) : Nat :=
  (g.map estimateTokens).sum

/-- A chunk of the greedy path is good when it is the trimmed blank-line join
of a non-empty group of paragraphs of the input, and the group is either a
single paragraph (which the loop never splits, however large) or has
paragraph-token sum within the threshold. -/
def GoodChunk (S : List (List Char)) (m : Nat) (ch : List Char) : Prop :=
  ∃ g, g ≠ [] ∧ (∀ p ∈ g, p ∈ S) ∧ ch = trim (jsep g) ∧
    (g.length = 1 ∨ sumTok g ≤ m)

/-! ### Result combiners (combineTypesettingResults, combineRefinementResults,
combineContentStructureResults) -/
/-- The `styling` object of a `TypesettingResponse`. -/
structure TypesettingStyling where
  css : String
  layout : String

deriving DecidableEq

/-- The `TypesettingResponse` interface of azure-openai.ts. -/
structure TypesettingResponse where
  formattedContent : String
  styling : TypesettingStyling
  suggestions : List String

deriving DecidableEq

/-- The `RefinementResponse` interface of azure-openai.ts. -/
structure RefinementResponse where
  refinedContent : String
  refinedCSS : Option String
  changes : List String
  suggestions : List String
  explanation : String

deriving DecidableEq

/-- JS `[...new Set(xs)]`: deduplicate keeping the first occurrence of each
element; `seen` accumulates elements already emitted. -/
def jsDedupAux [DecidableEq α] : List α → List α → List α
  | [], _ => []
  | a :: rest, seen =>
    if a ∈ seen then jsDedupAux rest seen else a :: jsDedupAux rest (a :: seen)

/-- See `jsDedupAux`. -/
def jsDedup [DecidableEq α] (l : List α) : List α :=
  jsDedupAux l []

/-- The note `combineTypesettingResults` appends after deduplication:
`Content was processed in N chunks due to size`. -/
def chunkNote (n : Nat) : String :=
  "Content was processed in " ++ toString n ++ " chunks due to size"

/-- `combineTypesettingResults` from azure-openai.ts: error on zero results,
single result passed through verbatim, otherwise concatenate contents with a
blank line, keep the first result's CSS, annotate its layout, and append the
chunk-count note to the deduplicated suggestions. -/
def combineTypesettingResults : List TypesettingResponse → Except String TypesettingResponse
  | [] => Except.error ("No typesetting results to combine")
  | [r] => Except.ok r
  | results@(r0 :: _ :: _) =>
    Except.ok
      { formattedContent :=
          String.intercalate ("\n\n") (results.map (fun r => r.formattedContent))
        styling :=
          { css := r0.styling.css
            layout := r0.styling.layout ++ " (processed in " ++ toString results.length
              ++ " chunks)" }
        suggestions :=
          jsDedup (results.flatMap (fun r => r.suggestions)) ++ [chunkNote results.length] }

/-- `combineRefinementResults` from azure-openai.ts. -/
def combineRefinementResults : List RefinementResponse → Except String RefinementResponse
  | [] => Except.error ("No refinement results to combine")
  | [r] => Except.ok r
  | results@(r0 :: _ :: _) =>
    Except.ok
      { refinedContent :=
          String.intercalate ("\n\n") (results.map (fun r => r.refinedContent))
        refinedCSS := r0.refinedCSS
        changes := jsDedup (results.flatMap (fun r => r.changes))
        suggestions := jsDedup (results.flatMap (fun r => r.suggestions))
        explanation := "Applied user feedback across " ++ toString results.length
          ++ " content sections. " ++ r0.explanation }

/-- Leftmost regex-style search: try the matcher at every start position of
the string, scanning left to right, including the empty suffix. -/
def firstSome (f : List Char → Option α) : List Char → Option α
  | [] => f []
  | c :: rest =>
    match f (c :: rest) with
    | some r => some r
    | none => firstSome f rest

def findSubIdxAux (pat : List Char) : Nat → List Char → Option Nat
  | i, [] => if pat.isEmpty then some i else none
  | i, c :: rest => if pat.isPrefixOf (c :: rest) then some i else findSubIdxAux pat (i + 1) rest

/-- Index of the first occurrence of `pat` in a string (JS `indexOf`). -/
def findSubIdx (pat s : List Char) : Option Nat :=
  findSubIdxAux pat 0 s

/-- Matcher for `/<main[^>]*>([\s\S]*?)<\/main>/` anchored at the start of
`s`: the literal `<main`, attributes up to the first `>`, then the lazy body
up to the first `</main>`; returns the capture group (the body). -/
def mainMatchAt (s : List Char) : Option (List Char) :=
  if ("<main".data).isPrefixOf s then
    let after := s.drop 5
    let attrs := after.takeWhile (fun c => c != '>')
    match after.drop attrs.length with
    | '>' :: body => (findSubIdx ("</main>".data) body).map (fun k => body.take k)
    | _ => none
  else none

/-- Matcher for a single tag `<pre...>` (prefix `pre`, then `[^>]*`, then
`>`) anchored at the start of `s`; returns the length of the match. -/
def tagLenFrom (pre : List Char) (s : List Char) : Option Nat :=
  if pre.isPrefixOf s then
    let after := s.drop pre.length
    let attrs := after.takeWhile (fun c => c != '>')
    if (after.drop attrs.length).head? = some '>' then
      some (pre.length + attrs.length + 1)
    else none
  else none

/-- Matcher for `/<\/?article[^>]*>/` anchored at the start of `s`. -/
def articleTagLen (s : List Char) : Option Nat :=
  match tagLenFrom ("<article".data) s with
  | some n => some n
  | none => tagLenFrom ("</article".data) s

/-- Matcher for `/<\/?main[^>]*>/` anchored at the start of `s`. -/
def mainTagLen (s : List Char) : Option Nat :=
  match tagLenFrom ("<main".data) s with
  | some n => some n
  | none => tagLenFrom ("</main".data) s

/-- Matcher for `/<header[^>]*>[\s\S]*?<\/header>/` anchored at the start of
`s`: an opening header tag through the first closing `</header>`. -/
def headerBlockLen (s : List Char) : Option Nat :=
  match tagLenFrom ("<header".data) s with
  | some n => (findSubIdx ("</header>".data) (s.drop n)).map (fun k => n + k + 9)
  | none => none

/-- JS `String.prototype.replace(regex-with-g, '')`: remove every
non-overlapping match, scanning left to right. -/
def stripMatchesAux (matchLen : List Char → Option Nat) : Nat → List Char → List Char
  | 0, s => s
  | _ + 1, [] => []
  | fuel + 1, c :: rest =>
    match matchLen (c :: rest) with
    | some n =>
      if n = 0 then c :: stripMatchesAux matchLen fuel rest
      else stripMatchesAux matchLen fuel ((c :: rest).drop n)
    | none => c :: stripMatchesAux matchLen fuel rest

/-- See `stripMatchesAux`; fuel `s.length` suffices as every step consumes at
least one character. -/
def stripMatches (matchLen : List Char → Option Nat) (s : List Char) : List Char :=
  stripMatchesAux matchLen s.length s

/-- The per-result extraction step of `combineContentStructureResults`: keep
the `<main>` body when one exists, otherwise strip article/header/main
wrappers; in both cases trim the outcome. -/
def extractPiece (result : String) : String :=
  match firstSome mainMatchAt result.data with
  | some m => String.mk (trim m)
  | none =>
    String.mk (trim (stripMatches mainTagLen
      (stripMatches headerBlockLen (stripMatches articleTagLen result.data))))

/-- The wrapping template of `combineContentStructureResults`, after the
trailing `.trim()` of the template literal. -/
def structureWrap (inner : String) : String :=
  "<article>\n        <header>\n          <h1>Document</h1>\n        </header>\n        <main>\n          "
    ++ inner ++ "\n        </main>\n      </article>"

/-- `combineContentStructureResults` from azure-openai.ts: on zero results it
returns the placeholder `<p>No content processed</p>` (it does not throw);
a single result is passed through; otherwise the results are unwrapped,
filtered for non-emptiness, joined with a blank line and re-wrapped once. -/
def combineContentStructureResults : List String → String
  | [] => "<p>No content processed</p>"
  | [r] => r
  | results@(_ :: _ :: _) =>
    structureWrap (String.intercalate ("\n\n")
      ((results.map extractPiece).filter (fun c => decide (0 < c.length))))

example : extractPiece ("<main><p>x</p></main>") = "<p>x</p>" := by decide

example : extractPiece ("<article id=1><header>t</header><p>y</p></article>") = "<p>y</p>" := by
  decide

example : combineContentStructureResults [] = "<p>No content processed</p>" := rfl

/-- Read the suggestion list out of a combiner outcome (empty on error). -/
def okSuggestions : Except String TypesettingResponse → List String
  | Except.ok r => r.suggestions
  | Except.error _ => []

/-- A single-chunk typesetting result whose suggestion list repeats a string. -/
def dupResponse : TypesettingResponse :=
  { formattedContent := "x"
    styling := { css := "c", layout := "l" }
    suggestions := ["duplicate", "duplicate"] }

/-- Two concrete chunk results with overlapping suggestion lists. -/
def overlapA : TypesettingResponse :=
  { formattedContent := "a"
    styling := { css := "c", layout := "l" }
    suggestions := ["s1", "s2"] }

/-- Second concrete chunk result for the C6 witness. -/
def overlapB : TypesettingResponse :=
  { formattedContent := "b"
    styling := { css := "c2", layout := "l2" }
    suggestions := ["s2", "s3"] }

example :
    okSuggestions (combineTypesettingResults [overlapA, overlapB]) =
      ["s1", "s2", "s3", "Content was processed in 2 chunks due to size"] := by decide

/-! ### repairTruncatedJson (claim C8)

The four end-anchored regex patterns of `repairTruncatedJson` are modelled by
deterministic matchers anchored at a start position; a JS regex match is the
leftmost start position at which the whole pattern matches, which
`firstSome` reproduces.  (`\s` is modelled by `isWsChar`, covering the
whitespace characters that occur in model responses.) -/
/-- Shared prefix of all four patterns: `"[^"]*":` anchored at the start;
returns the captured prefix (key in quotes plus the colon) and the rest. -/
def keyColonAt : List Char → Option (List Char × List Char)
  | '"' :: rest =>
    let key := rest.takeWhile (fun c => c != '"')
    match rest.drop key.length with
    | '"' :: ':' :: r2 => some ('"' :: (key ++ ['"', ':']), r2)
    | _ => none
  | _ => none

/-- The trailing `,?\s*$` of the four patterns. -/
def tailCommaWs : List Char → Bool
  | ',' :: r2 => r2.all isWsChar
  | r => r.all isWsChar

/-- `/("[^"]*":\s*"[^"]*"),?\s*$/` anchored at the start; returns capture
group 1. -/
def matchStrPropAt (s : List Char) : Option (List Char) :=
  match keyColonAt s with
  | none => none
  | some (pre, r2) =>
    let w := r2.takeWhile isWsChar
    match r2.drop w.length with
    | '"' :: r4 =>
      let v := r4.takeWhile (fun c => c != '"')
      match r4.drop v.length with
      | '"' :: r6 =>
        if tailCommaWs r6 then some (pre ++ w ++ '"' :: (v ++ ['"'])) else none
      | _ => none
    | _ => none

/-- `/("[^"]*":\s*\[[^\]]*\]),?\s*$/` anchored at the start. -/
def matchArrPropAt (s : List Char) : Option (List Char) :=
  match keyColonAt s with
  | none => none
  | some (pre, r2) =>
    let w := r2.takeWhile isWsChar
    match r2.drop w.length with
    | '[' :: r4 =>
      let v := r4.takeWhile (fun c => c != ']')
      match r4.drop v.length with
      | ']' :: r6 =>
        if tailCommaWs r6 then some (pre ++ w ++ '[' :: (v ++ [']'])) else none
      | _ => none
    | _ => none

/-- `/("[^"]*":\s*\{[^}]*\}),?\s*$/` anchored at the start. -/
def matchObjPropAt (s : List Char) : Option (List Char) :=
  match keyColonAt s with
  | none => none
  | some (pre, r2) =>
    let w := r2.takeWhile isWsChar
    match r2.drop w.length with
    | '{' :: r4 =>
      let v := r4.takeWhile (fun c => c != '}')
      match r4.drop v.length with
      | '}' :: r6 =>
        if tailCommaWs r6 then some (pre ++ w ++ '{' :: (v ++ ['}'])) else none
      | _ => none
    | _ => none

/-- `/("[^"]*":\s*[^,}\]]*),?\s*$/` anchored at the start.  Since whitespace
belongs to the value class `[^,}\]]`, the `\s*` and the value run fuse into
one maximal run of class characters. -/
def matchAnyPropAt (s : List Char) : Option (List Char) :=
  match keyColonAt s with
  | none => none
  | some (pre, r2) =>
    let v := r2.takeWhile (fun c => !(c = ',' || c = '}' || c = ']'))
    if tailCommaWs (r2.drop v.length) then some (pre ++ v) else none

/-- JS `String.prototype.lastIndexOf`: the greatest start position at which
`pat` occurs in `hay`. -/
def lastIndexOfSub (hay pat : List Char) : Option Nat :=
  ((List.range (hay.length + 1)).filter (fun i => pat.isPrefixOf (hay.drop i))).getLast?

/-- `cleaned.substring(0, lastCompleteIndex + match[1].length)` of
`repairTruncatedJson`. -/
def truncFromCapture (json cap : List Char) : Option (List Char) :=
  (lastIndexOfSub json cap).map (fun idx => json.take (idx + cap.length))

/-- The brace-appending step of `repairTruncatedJson`:
`cleaned += '}' + '}'.repeat(Math.max(0, missingBraces - 1))` where
`missingBraces` counts `{` minus `}` in the truncated prefix. -/
def closeBraces (t : List Char) : List Char :=
  t ++ '}' :: List.replicate (t.count '{' - (t.count '}' + 1)) '}'

/-- The pattern loop of `repairTruncatedJson`: the first of the four patterns
(in source order) that matches anywhere determines the truncation prefix. -/
def truncTarget (json : List Char) : Option (List Char) :=
  match firstSome matchStrPropAt json with
  | some cap => truncFromCapture json cap
  | none =>
    match firstSome matchArrPropAt json with
    | some cap => truncFromCapture json cap
    | none =>
      match firstSome matchObjPropAt json with
      | some cap => truncFromCapture json cap
      | none =>
        match firstSome matchAnyPropAt json with
        | some cap => truncFromCapture json cap
        | none => none

deriving instance DecidableEq for Except

/-- `repairTruncatedJson` from azure-openai.ts: truncate to the last
syntactically complete property and append closing braces, or throw. -/
def repairTruncatedJson (json : List Char) : Except String (List Char) :=
  match truncTarget json with
  | some t => Except.ok (closeBraces t)
  | none => Except.error ("Truncated JSON response cannot be repaired automatically")

example :
    repairTruncatedJson ("\x7b\"a\": \"b\"".data) = Except.ok ("\x7b\"a\": \"b\"\x7d".data) := by
  decide

example :
    repairTruncatedJson ("\x7b\"a\": \x7b\"b\": 1".data) =
      Except.ok ("\x7b\"a\": \x7b\"b\": 1\x7d\x7d".data) := by
  decide

/-! ### A JSON parser modelling JS `JSON.parse`

`validateJsonResponse` and the final `JSON.parse` of the repair ladder are
modelled with a fuel-based recursive-descent parser for the JSON grammar
(objects, arrays, strings with escapes, numbers, literals).  The fuel
`length + 1` suffices because every recursive call is preceded by the
consumption of at least one character. -/
inductive Json where
  | jnull
  | jbool (b : Bool)
  | jnum (lexeme : List Char)
  | jstr (s : List Char)
  | jarr (elems : List Json)
  | jobj (members : List (List Char × Json))

/-- Single-character JSON string escapes. -/
def escChar : Char → Option Char
  | '"' => some '"'
  | '\\' => some '\\'
  | '/' => some '/'
  | 'b' => some (Char.ofNat 8)
  | 'f' => some (Char.ofNat 12)
  | 'n' => some '\n'
  | 'r' => some '\r'
  | 't' => some '\t'
  | _ => none

/-- Hexadecimal digit value for `\uXXXX` escapes. -/
def hexVal (c : Char) : Option Nat :=
  if c.isDigit then some (c.toNat - 48)
  else if 'a' ≤ c ∧ c ≤ 'f' then some (c.toNat - 87)
  else if 'A' ≤ c ∧ c ≤ 'F' then some (c.toNat - 55)
  else none

/-- JSON string body after the opening quote: decoded content and the rest
of the input after the closing quote.  Raw control characters are rejected,
as `JSON.parse` does. -/
def parseStrBody : List Char → Option (List Char × List Char)
  | [] => none
  | '"' :: rest => some ([], rest)
  | '\\' :: 'u' :: h1 :: h2 :: h3 :: h4 :: rest =>
    match hexVal h1, hexVal h2, hexVal h3, hexVal h4 with
    | some a, some b, some c, some d =>
      (parseStrBody rest).map (fun p =>
        (Char.ofNat (((a * 16 + b) * 16 + c) * 16 + d) :: p.1, p.2))
    | _, _, _, _ => none
  | '\\' :: e :: rest =>
    match escChar e with
    | some c => (parseStrBody rest).map (fun p => (c :: p.1, p.2))
    | none => none
  | c :: rest =>
    if c.toNat < 32 then none
    else (parseStrBody rest).map (fun p => (c :: p.1, p.2))

/-- Integer part of a JSON number: `0` or a nonzero digit followed by
digits. -/
def parseIntPart : List Char → Option (List Char × List Char)
  | '0' :: r => some (['0'], r)
  | c :: r =>
    if c.isDigit then some (c :: r.takeWhile Char.isDigit, r.dropWhile Char.isDigit)
    else none
  | [] => none

/-- Optional fraction part of a JSON number. -/
def parseFracPart (s : List Char) : Option (List Char × List Char) :=
  match s with
  | '.' :: r =>
    let ds := r.takeWhile Char.isDigit
    if ds.isEmpty then none else some ('.' :: ds, r.drop ds.length)
  | _ => some ([], s)

/-- Optional exponent part of a JSON number. -/
def parseExpPart (s : List Char) : Option (List Char × List Char) :=
  match s with
  | c :: r =>
    if c = 'e' ∨ c = 'E' then
      let (sg, r2) :=
        match r with
        | '+' :: rr => ((['+'] : List Char), rr)
        | '-' :: rr => (['-'], rr)
        | _ => ([], r)
      let ds := r2.takeWhile Char.isDigit
      if ds.isEmpty then none else some (c :: (sg ++ ds), r2.drop ds.length)
    else some ([], s)
  | [] => some ([], [])

/-- A JSON number: lexeme and remaining input. -/
def parseNum (s : List Char) : Option (List Char × List Char) :=
  let (sign, s1) :=
    match s with
    | '-' :: r => ((['-'] : List Char), r)
    | _ => ([], s)
  match parseIntPart s1 with
  | none => none
  | some (ip, r1) =>
    match parseFracPart r1 with
    | none => none
    | some (fp, r2) =>
      match parseExpPart r2 with
      | none => none
      | some (ep, r3) => some (sign ++ ip ++ fp ++ ep, r3)

mutual

def parseValue : Nat → List Char → Option (Json × List Char)
  | 0, _ => none
  | fuel + 1, s0 =>
    match s0.dropWhile isWsChar with
    | '{' :: rest =>
      (match rest.dropWhile isWsChar with
       | '}' :: r2 => some (Json.jobj [], r2)
       | _ => parseMembers fuel rest [])
    | '[' :: rest =>
      (match rest.dropWhile isWsChar with
       | ']' :: r2 => some (Json.jarr [], r2)
       | _ => parseElems fuel rest [])
    | '"' :: rest => (parseStrBody rest).map (fun p => (Json.jstr p.1, p.2))
    | 't' :: 'r' :: 'u' :: 'e' :: r => some (Json.jbool true, r)
    | 'f' :: 'a' :: 'l' :: 's' :: 'e' :: r => some (Json.jbool false, r)
    | 'n' :: 'u' :: 'l' :: 'l' :: r => some (Json.jnull, r)
    | s => (parseNum s).map (fun p => (Json.jnum p.1, p.2))

def parseMembers : Nat → List Char → List (List Char × Json) → Option (Json × List Char)
  | 0, _, _ => none
  | fuel + 1, s, acc =>
    match s.dropWhile isWsChar with
    | '"' :: rest =>
      (match parseStrBody rest with
       | none => none
       | some (k, r1) =>
         match r1.dropWhile isWsChar with
         | ':' :: r2 =>
           (match parseValue fuel r2 with
            | none => none
            | some (v, r3) =>
              match r3.dropWhile isWsChar with
              | ',' :: r4 => parseMembers fuel r4 (acc ++ [(k, v)])
              | '}' :: r4 => some (Json.jobj (acc ++ [(k, v)]), r4)
              | _ => none)
         | _ => none)
    | _ => none

def parseElems : Nat → List Char → List Json → Option (Json × List Char)
  | 0, _, _ => none
  | fuel + 1, s, acc =>
    match parseValue fuel s with
    | none => none
    | some (v, r) =>
      match r.dropWhile isWsChar with
      | ',' :: r2 => parseElems fuel r2 (acc ++ [v])
      | ']' :: r2 => some (Json.jarr (acc ++ [v]), r2)
      | _ => none

end

/-- `JSON.parse`: a complete JSON value with nothing but whitespace after
it.  `isSome` of this models `validateJsonResponse(...).isValid`. -/
def jsonParse (s : List Char) : Option Json :=
  match parseValue (s.length + 1) s with
  | some (j, rest) => if (rest.dropWhile isWsChar).isEmpty then some j else none
  | none => none

example : (jsonParse ("\x7b\"a\": [1, 2], \"b\": \"x\"\x7d".data)).isSome = true := by decide

example : (jsonParse ("\x7b\"a\": ".data)).isSome = false := by decide

example : (jsonParse ("garbage".data)).isSome = false := by decide

example : (jsonParse (" true ".data)).isSome = true := by decide

/-! ### The repair ladder of cleanJsonResponse -/
/-- The backtick character (written via its code point). -/
def backtickChar : Char := Char.ofNat 96

/-- One global-replace pass removing `lit` followed by greedy whitespace
(JS `replace(/lit\s*/g, '')`), scanning left to right past each match. -/
def stripLitWsAux (lit : List Char) : Nat → List Char → List Char
  | 0, s => s
  | _ + 1, [] => []
  | fuel + 1, c :: rest =>
    if lit.isPrefixOf (c :: rest) then
      stripLitWsAux lit fuel (((c :: rest).drop lit.length).dropWhile isWsChar)
    else c :: stripLitWsAux lit fuel rest

/-- The fence-stripping step of `cleanJsonResponse`:
`.replace(/```json\s*/g, '').replace(/```\s*/g, '')`. -/
def stripFences (s : List Char) : List Char :=
  let s1 := stripLitWsAux (backtickChar :: backtickChar :: backtickChar :: "json".data) s.length s
  stripLitWsAux [backtickChar, backtickChar, backtickChar] s1.length s1

/-- The `/\{[\s\S]*\}/` extraction of `cleanJsonResponse`: from the first
`{` through the last `}` (the greedy star backtracks to the last closing
brace), when such a span exists. -/
def extractBraceSpan (s : List Char) : Option (List Char) :=
  match findSubIdx ['{'] s, lastIndexOfSub s ['}'] with
  | some i, some j => if i < j then some ((s.drop i).take (j - i + 1)) else none
  | _, _ => none

/-- Body of a well-formed JSON-ish string literal for the sanitizer's
pattern `/"([^"\\]*(\\.[^"\\]*)*)"/`: plain characters or escape pairs (the
dot does not match a newline), kept verbatim; returns the raw body and the
input after the closing quote. -/
def sanBody : List Char → Option (List Char × List Char)
  | [] => none
  | '"' :: rest => some ([], rest)
  | '\\' :: c :: rest =>
    if c = '\n' then none
    else (sanBody rest).map (fun p => ('\\' :: c :: p.1, p.2))
  | c :: rest =>
    if c = '\\' then none
    else (sanBody rest).map (fun p => (c :: p.1, p.2))

/-- One pass of `content.replace(/(?<!\\)t/g, rep)`: replace `target` when
the preceding character of the input is not a backslash. -/
def lbReplace (target : Char) (rep : List Char) : Option Char → List Char → List Char
  | _, [] => []
  | prev, c :: rest =>
    if c = target ∧ prev ≠ some '\\' then rep ++ lbReplace target rep (some c) rest
    else c :: lbReplace target rep (some c) rest

/-- The five sequential lookbehind replaces of the sanitizer's callback:
newline, carriage return, tab, quote, then lone backslashes. -/
def sanFix (content : List Char) : List Char :=
  lbReplace '\\' ['\\', '\\'] none
    (lbReplace '"' ['\\', '"'] none
      (lbReplace '\t' ['\\', 't'] none
        (lbReplace '\r' ['\\', 'r'] none
          (lbReplace '\n' ['\\', 'n'] none content))))

def sanitizeAux : Nat → List Char → List Char
  | 0, s => s
  | _ + 1, [] => []
  | fuel + 1, '"' :: rest =>
    match sanBody rest with
    | some (b, r) => '"' :: (sanFix b ++ '"' :: sanitizeAux fuel r)
    | none => '"' :: sanitizeAux fuel rest
  | fuel + 1, c :: rest => c :: sanitizeAux fuel rest

/-- `sanitizeJsonStrings` from azure-openai.ts: re-escape the content of
every string literal found in the text. -/
def sanitizeJsonStrings (s : List Char) : List Char :=
  sanitizeAux s.length s

/-- `cleanJsonResponse` from azure-openai.ts: return valid responses as-is;
otherwise strip fences and trim, extract a brace span if the text does not
start with `{`, repair truncation if it does not end with `}`, sanitize
strings if still invalid, and fail if the result still does not parse.
Thrown errors are re-thrown with the `JSON cleaning failed:` prefix (the JS
message embeds the parser's error text; the model uses a fixed tail). -/
def cleanJsonResponse (response : List Char) : Except String (List Char) :=
  if (jsonParse response).isSome then Except.ok response
  else
    let cleaned := trim (stripFences response)
    match (if cleaned.head? = some '{' then Except.ok cleaned
           else
             match extractBraceSpan cleaned with
             | some m => Except.ok m
             | none => Except.error ("No valid JSON object found in response")) with
    | Except.error e => Except.error ("JSON cleaning failed: " ++ e)
    | Except.ok c1 =>
      match (if c1.getLast? = some '}' then Except.ok c1 else repairTruncatedJson c1) with
      | Except.error e => Except.error ("JSON cleaning failed: " ++ e)
      | Except.ok c2 =>
        let c3 := if (jsonParse c2).isSome then c2 else sanitizeJsonStrings c2
        if (jsonParse c3).isSome then Except.ok c3
        else Except.error ("JSON cleaning failed: Unable to repair JSON")

/-- The fragment-extraction regex of `processTypesettingChunk`:
`/"formattedContent"\s*:\s*"([^"]+)"/` anchored at the start of `s`. -/
def fragmentExtractAt (s : List Char) : Option (List Char) :=
  if ("\"formattedContent\"".data).isPrefixOf s then
    match (s.drop 18).dropWhile isWsChar with
    | ':' :: r2 =>
      (match r2.dropWhile isWsChar with
       | '"' :: r4 =>
         let v := r4.takeWhile (fun c => c != '"')
         if v.isEmpty then none
         else if (r4.drop v.length).head? = some '"' then some v else none
       | _ => none)
    | _ => none
  else none

/-- Leftmost match of the fragment-extraction regex over the raw response. -/
def fragmentExtract (s : List Char) : Option (List Char) :=
  firstSome fragmentExtractAt s

/-- One global literal replace pass (JS `replace(/pat/g, rep)` for a fixed
pattern with no metacharacters). -/
def replaceSubAux (pat rep : List Char) : Nat → List Char → List Char
  | 0, s => s
  | _ + 1, [] => []
  | fuel + 1, c :: rest =>
    if pat.isPrefixOf (c :: rest) then
      rep ++ replaceSubAux pat rep fuel ((c :: rest).drop pat.length)
    else c :: replaceSubAux pat rep fuel rest

/-- See `replaceSubAux`. -/
def replaceSub (pat rep s : List Char) : List Char :=
  replaceSubAux pat rep s.length s

/-- `partialMatch[1].replace(/\\n/g, '\n').replace(/\\"/g, '"')`. -/
def fragmentUnescape (v : List Char) : List Char :=
  replaceSub ['\\', '"'] ['"'] (replaceSub ['\\', 'n'] ['\n'] v)

example : (cleanJsonResponse ("garbage".data)).isOk = false := by decide

example : fragmentExtract ("garbage".data) = none := by decide

example :
    cleanJsonResponse
        ((backtickChar :: backtickChar :: backtickChar :: "json".data) ++
          " \x7b\"a\": 1\x7d".data) =
      Except.ok ("\x7b\"a\": 1\x7d".data) := by decide

example :
    fragmentExtract ("x \"formattedContent\": \"hi\" y".data) = some ("hi".data) := by decide

/-! ### TypesettingRequest, fallback generator, per-chunk processor -/
inductive DocumentType where
  | academic | business | newsletter | report | article | calendar

deriving DecidableEq

inductive OutputFormat where
  | pdf | html

deriving DecidableEq

structure MarginPrefs where
  top : Nat
  right : Nat
  bottom : Nat
  left : Nat

deriving DecidableEq

/-- The optional `styling` field of `TypesettingRequest`.  The JS
`lineHeight` is a float used only interpolated into CSS text; it is modelled
by its decimal rendering. -/
structure StylingPrefs where
  fontSize : Option Nat
  fontFamily : Option String
  lineHeight : Option String
  margins : Option MarginPrefs

deriving DecidableEq

structure ImageRef where
  src : String
  alt : String

deriving DecidableEq

/-- The `TypesettingRequest` interface of azure-openai.ts. -/
structure TypesettingRequest where
  content : List Char
  documentType : DocumentType
  outputFormat : OutputFormat
  images : Option (List ImageRef)
  screenshot : Option String
  styling : Option StylingPrefs

deriving DecidableEq

/-- JS `x || d` on an optional number: `undefined` and the falsy `0` both
yield the default. -/
def jsOrNat (v : Option Nat) (d : Nat) : Nat :=
  match v with
  | some n => if n = 0 then d else n
  | none => d

/-- JS `x || d` on an optional string: `undefined` and the falsy empty
string both yield the default. -/
def jsOrStr (v : Option String) (d : String) : String :=
  match v with
  | some s => if s.isEmpty then d else s
  | none => d

/-- The interpolated name of a document type (`${request.documentType}`). -/
def docTypeName : DocumentType → String
  | DocumentType.academic => "academic"
  | DocumentType.business => "business"
  | DocumentType.newsletter => "newsletter"
  | DocumentType.report => "report"
  | DocumentType.article => "article"
  | DocumentType.calendar => "calendar"

/-- The shared CSS template of `createBasicCSS` and the base CSS of
`createFallbackTypesetting` (identical template literals in the source). -/
def basicCssTemplate (request : TypesettingRequest) : String :=
  "\n      body \x7b\n        font-family: "
    ++ jsOrStr (request.styling.bind (fun st => st.fontFamily)) ("'Times New Roman', serif")
    ++ ";\n        font-size: "
    ++ toString (jsOrNat (request.styling.bind (fun st => st.fontSize)) 12)
    ++ "px;\n        line-height: "
    ++ jsOrStr (request.styling.bind (fun st => st.lineHeight)) ("1.6")
    ++ ";\n        color: #333;\n        max-width: 800px;\n        margin: 0 auto;\n        padding: "
    ++ toString (jsOrNat ((request.styling.bind (fun st => st.margins)).map (fun mg => mg.top)) 20)
    ++ "px;\n      \x7d\n      \n      h1, h2, h3, h4, h5, h6 \x7b\n        font-weight: bold;\n        margin-top: 1.5em;\n        margin-bottom: 0.5em;\n      \x7d\n      \n      h1 \x7b font-size: 24px; \x7d\n      h2 \x7b font-size: 20px; \x7d\n      h3 \x7b font-size: 16px; \x7d\n      \n      p \x7b\n        margin-bottom: 1em;\n        text-align: justify;\n      \x7d\n    "

/-- `createBasicCSS` from azure-openai.ts. -/
def createBasicCSS (request : TypesettingRequest) : String :=
  basicCssTemplate request

/-- The document-type-specific CSS `createFallbackTypesetting` appends. -/
def fallbackExtraCss : DocumentType → String
  | DocumentType.academic =>
    "\n        h1 \x7b text-align: center; margin-bottom: 2em; \x7d\n        p \x7b text-indent: 1.5em; \x7d\n      "
  | DocumentType.business =>
    "\n        h1, h2 \x7b color: #2c3e50; \x7d\n        p \x7b margin-bottom: 1.2em; \x7d\n      "
  | DocumentType.calendar =>
    "\n        h1 \x7b text-align: center; color: #1e40af; margin-bottom: 1.5em; \x7d\n        h2 \x7b color: #374151; border-bottom: 2px solid #e5e7eb; padding-bottom: 0.5em; \x7d\n        table \x7b width: 100%; border-collapse: collapse; margin: 1em 0; \x7d\n        th, td \x7b border: 1px solid #d1d5db; padding: 0.5em; text-align: center; \x7d\n        th \x7b background-color: #f3f4f6; font-weight: bold; \x7d\n        .date \x7b font-weight: bold; \x7d\n        .event \x7b font-style: italic; color: #6b7280; \x7d\n      "
  | _ => ""

/-- `createFallbackTypesetting` from azure-openai.ts: wrap the non-blank
paragraphs in `<p>` tags, emit the static CSS block (plus the
document-type-specific tail), and label the result as a non-AI fallback. -/
def createFallbackTypesetting (request : TypesettingRequest) : TypesettingResponse :=
  let paragraphs := (splitParas request.content).filter (fun p => !(trim p).isEmpty)
  let htmlContent :=
    String.intercalate ("\n") (paragraphs.map (fun p => "<p>" ++ String.mk (trim p) ++ "</p>"))
  { formattedContent := htmlContent
    styling :=
      { css := basicCssTemplate request ++ fallbackExtraCss request.documentType
        layout := "Basic " ++ docTypeName request.documentType ++ " layout with proper typography" }
    suggestions :=
      ["Basic formatting applied",
       "Consider customizing fonts and spacing for better appearance",
       "Azure OpenAI service unavailable - using fallback formatting"] }

/-- Outcome of one remote model call: the API call threw, it resolved with a
null/absent message content, or it resolved with a raw text response. -/
inductive ModelResult where
  | apiError
  | noContent
  | content (raw : List Char)

/-- Lookup of a key in a parsed JSON object; `JSON.parse` keeps the last
occurrence of a duplicated key, hence the reversed search.  Property access
on a non-object yields `undefined`, modelled as `none`. -/
def jsonField : Json → String → Option Json
  | Json.jobj kvs, key => (kvs.reverse.find? (fun kv => kv.1 == key.data)).map (fun kv => kv.2)
  | _, _ => none

/-- A string payload out of an optional JSON value (`undefined` otherwise). -/
def jsonStr : Option Json → Option (List Char)
  | some (Json.jstr s) => some s
  | _ => none

/-- The TS cast `JSON.parse(cleanedResult) as TypesettingResponse` performs
no validation; missing or non-string fields surface as `undefined` in JS and
are modelled as empty strings / lists here. -/
def decodeTypesetting (j : Json) : TypesettingResponse :=
  { formattedContent := String.mk ((jsonStr (jsonField j ("formattedContent"))).getD [])
    styling :=
      { css := String.mk
          ((jsonStr ((jsonField j ("styling")).bind (fun st => jsonField st ("css")))).getD [])
        layout := String.mk
          ((jsonStr ((jsonField j ("styling")).bind (fun st => jsonField st ("layout")))).getD []) }
    suggestions :=
      (match jsonField j ("suggestions") with
       | some (Json.jarr xs) => xs
       | _ => []).filterMap (fun v =>
        match v with
        | Json.jstr s => some (String.mk s)
        | _ => none) }

/-- The body of the outer `try` of `processTypesettingChunk`: an API error
or a null message content throws; otherwise the response is cleaned and
parsed; on parse failure the fragment extraction builds a partial result;
if even that fails, the hard `Invalid JSON response` error is thrown. -/
def processTypesettingChunkInner (request : TypesettingRequest) (mr : ModelResult) :
    Except String TypesettingResponse :=
  match mr with
  | ModelResult.apiError => Except.error ("Azure OpenAI call failed")
  | ModelResult.noContent => Except.error ("No response from Azure OpenAI")
  | ModelResult.content raw =>
    match cleanJsonResponse raw with
    | Except.ok cleaned =>
      Except.ok (decodeTypesetting ((jsonParse cleaned).getD Json.jnull))
    | Except.error _ =>
      match fragmentExtract raw with
      | some v =>
        Except.ok
          { formattedContent := String.mk (fragmentUnescape v)
            styling :=
              { css := createBasicCSS request
                layout := "Basic layout applied due to parsing error" }
            suggestions := ["Response parsing failed, using basic formatting"] }
      | none => Except.error ("Invalid JSON response from Azure OpenAI")

/-- `processTypesettingChunk` from azure-openai.ts: the outer `catch` turns
every error raised inside (API failure, null content, unrepairable
response) into the fallback typesetting result, so the function as a whole
never throws.  `chunkIndex` and `isLast` are accepted and ignored exactly as
in the source. -/
def processTypesettingChunk (request : TypesettingRequest) (chunkIndex : Nat) (isLast : Bool)
    (mr : ModelResult) : TypesettingResponse :=
  match processTypesettingChunkInner request mr with
  | Except.ok r => r
  | Except.error _ => createFallbackTypesetting request

/-! ### Dispatcher, pipeline, and the SSE route (processContentInChunks,
improveTypesetting, typesetting-progress POST) -/
/-- A progress callback payload `{step, percentage, chunkIndex, totalChunks}`. -/
structure ProgressEvent where
  step : String
  percentage : Nat
  chunkIndex : Nat
  totalChunks : Nat

deriving DecidableEq

/-- `Math.round((i / totalChunks) * 80) + 10`, the 10-90% range of the
multi-chunk loop, as exact rational rounding (round half up). -/
def roundPct (i n : Nat) : Nat :=
  (160 * i + n) / (2 * n) + 10

/-- The per-chunk progress events of the multi-chunk loop, in emission
order. -/
def chunkEvents (n : Nat) : List ProgressEvent :=
  (List.range n).map (fun i =>
    { step := "Processing chunk " ++ toString (i + 1) ++ " of " ++ toString n ++ "..."
      percentage := roundPct i n
      chunkIndex := i + 1
      totalChunks := n })

/-- The result-collection loop of `processContentInChunks`: process the
chunks in order; a chunk whose processing throws is skipped (logged in the
source) and contributes nothing. -/
def collectResults (chunks : List (List Char))
    (processor : List Char → Bool → Nat → Except String T) : List T :=
  chunks.enum.foldl (fun acc p =>
    match processor p.2 (decide (p.1 = chunks.length - 1)) p.1 with
    | Except.ok r => acc ++ [r]
    | Except.error _ => acc) []

/-- `processContentInChunks` from azure-openai.ts, with the `onProgress`
callback reified as the returned event list (events in call order).  On the
single-chunk path the processor call is not guarded, so an error there
propagates after the 50% event; on the multi-chunk path per-chunk errors are
skipped, and a combiner error propagates after the 95% event (the final
100% event is then never emitted). -/
def processContentInChunks (content : List Char)
    (processor : List Char → Bool → Nat → Except String T)
    (combiner : List T → Except String T) :
    Except String T × List ProgressEvent :=
  let chunks := chunkContent content 7000
  if chunks.length = 1 then
    match processor (chunks.headD []) true 0 with
    | Except.ok r =>
      (Except.ok r,
        [{ step := "Processing content...", percentage := 50, chunkIndex := 1, totalChunks := 1 },
         { step := "Processing complete", percentage := 100, chunkIndex := 1, totalChunks := 1 }])
    | Except.error e =>
      (Except.error e,
        [{ step := "Processing content...", percentage := 50, chunkIndex := 1, totalChunks := 1 }])
  else
    match combiner (collectResults chunks processor) with
    | Except.ok r =>
      (Except.ok r,
        chunkEvents chunks.length ++
          [{ step := "Combining results...", percentage := 95,
             chunkIndex := chunks.length, totalChunks := chunks.length },
           { step := "Processing complete", percentage := 100,
             chunkIndex := chunks.length, totalChunks := chunks.length }])
    | Except.error e =>
      (Except.error e,
        chunkEvents chunks.length ++
          [{ step := "Combining results...", percentage := 95,
             chunkIndex := chunks.length, totalChunks := chunks.length }])

/-- The processor lambda `improveTypesetting` hands to the dispatcher: call
the per-chunk typesetting processor on the request with the chunk as
content.  The remote model is an oracle `model : chunk index → outcome`.
`processTypesettingChunk` catches internally, so this never errors. -/
def typesettingProcessor (request : TypesettingRequest) (model : Nat → ModelResult) :
    List Char → Bool → Nat → Except String TypesettingResponse :=
  fun chunk isLast chunkIndex =>
    Except.ok
      (processTypesettingChunk { request with content := chunk } chunkIndex isLast
        (model chunkIndex))

/-- `improveTypesetting` from azure-openai.ts: with no configured client the
fallback result is returned immediately (no chunking, no dispatch, no
events); otherwise the dispatcher runs with the typesetting processor and
combiner. -/
def improveTypesetting (request : TypesettingRequest) (clientAvailable : Bool)
    (model : Nat → ModelResult) :
    Except String TypesettingResponse × List ProgressEvent :=
  if !clientAvailable then (Except.ok (createFallbackTypesetting request), [])
  else
    processContentInChunks request.content (typesettingProcessor request model)
      (fun results => combineTypesettingResults results)

/-- One event on the SSE stream of the typesetting-progress route: a relayed
progress event, the terminal `complete` frame (carrying the result), or the
terminal `error` frame (carrying a message). -/
inductive RouteEvent where
  | progress (e : ProgressEvent)
  | complete (result : TypesettingResponse) (percentage : Nat)
  | errorEvent (message : String) (percentage : Nat)

deriving DecidableEq

/-- The event sequence the POST handler of
src/app/api/typesetting-progress/route.ts writes for one run: every
progress callback in order, then exactly one terminal frame — `complete`
with percentage 100 on resolution, `error` with percentage 0 on
rejection. -/
def routeEvents (request : TypesettingRequest) (clientAvailable : Bool)
    (model : Nat → ModelResult) : List RouteEvent :=
  match improveTypesetting request clientAvailable model with
  | (res, evs) =>
    evs.map RouteEvent.progress ++
      [match res with
       | Except.ok r => RouteEvent.complete r 100
       | Except.error e => RouteEvent.errorEvent e 0]

/-- The percentage carried by a route event. -/
def pctOf : RouteEvent → Nat
  | RouteEvent.progress e => e.percentage
  | RouteEvent.complete _ p => p
  | RouteEvent.errorEvent _ p => p

/-- Whether a route event is a terminal frame. -/
def isTerminal : RouteEvent → Bool
  | RouteEvent.progress _ => false
  | RouteEvent.complete _ _ => true
  | RouteEvent.errorEvent _ _ => true

/-- Extract the payload of a successful outcome (with a default that is
provably never used for this pipeline). -/
def okValue (d : TypesettingResponse) : Except String TypesettingResponse → TypesettingResponse
  | Except.ok r => r
  | Except.error _ => d

/-! ### Claim C4: exhaustion of the repair ladder -/
/-- A small concrete request for evaluating the chunk processor. -/
def reqEx : TypesettingRequest :=
  { content := "hi".data
    documentType := DocumentType.article
    outputFormat := OutputFormat.pdf
    images := none
    screenshot := none
    styling := none }

/-! ## Theorems -/

/-! ### Basic facts about the splitter -/
theorem splitParas_ne_nil (s : List Char) : splitParas s ≠ [] := by
  induction s using splitParas.induct with
  | case1 => simp [splitParas]
  | case2 rest ih => simp [splitParas]
  | case3 c rest hnn heq ih => simp [splitParas, heq]
  | case4 c rest hnn h t heq ih => simp [splitParas, heq]

theorem jsep_cons_of_ne_nil (x : List Char) {l : List (List Char)} (h : l ≠ []) :
    jsep (x :: l) = x ++ '\n' :: '\n' :: jsep l := by
  cases l with
  | nil => exact absurd rfl h
  | cons y t => rfl

/-- Joining the pieces of `split('\n\n')` with `'\n\n'` reproduces the input. -/
theorem jsep_splitParas (s : List Char) : jsep (splitParas s) = s := by
  induction s using splitParas.induct with
  | case1 => rfl
  | case2 rest ih =>
    rw [splitParas, jsep_cons_of_ne_nil _ (splitParas_ne_nil rest), ih]
    rfl
  | case3 c rest hnn heq ih => exact absurd heq (splitParas_ne_nil rest)
  | case4 c rest hnn h t heq ih =>
    have hform : splitParas (c :: rest) = (c :: h) :: t := by
      simp [splitParas, heq]
    rw [hform]
    rw [heq] at ih
    cases t with
    | nil =>
      simp only [jsep] at ih ⊢
      rw [ih]
    | cons z zs =>
      simp only [jsep] at ih ⊢
      rw [List.cons_append, ih]

theorem jsep_merge (xs : List (List Char)) (a b : List Char) (ys : List (List Char)) :
    jsep (xs ++ (a ++ '\n' :: '\n' :: b) :: ys) = jsep (xs ++ a :: b :: ys) := by
  induction xs with
  | nil =>
    cases ys with
    | nil => simp [jsep]
    | cons z zs => simp [jsep, jsep_cons_of_ne_nil]
  | cons x xs ih =>
    have h1 : (xs ++ (a ++ '\n' :: '\n' :: b) :: ys) ≠ [] := by simp
    have h2 : (xs ++ a :: b :: ys) ≠ [] := by simp
    rw [List.cons_append, List.cons_append, jsep_cons_of_ne_nil _ h1,
      jsep_cons_of_ne_nil _ h2, ih]

theorem jsep_append_singleton {l : List (List Char)} (h : l ≠ []) (p : List Char) :
    jsep (l ++ [p]) = jsep l ++ '\n' :: '\n' :: p := by
  induction l with
  | nil => exact absurd rfl h
  | cons x xs ih =>
    cases xs with
    | nil => rfl
    | cons y t =>
      rw [List.cons_append, jsep_cons_of_ne_nil _ (by simp),
        jsep_cons_of_ne_nil _ (List.cons_ne_nil y t), ih (by simp)]
      simp

theorem trim_of_clean {s : List Char} (h : Clean s) : trim s = s := by
  obtain ⟨-, h1, h2⟩ := h
  unfold trim
  rw [h1, h2, List.reverse_reverse]

theorem dropWhile_append_of_self {p : Char → Bool} {s : List Char}
    (hs : s.dropWhile p = s) (hne : s ≠ []) (l : List Char) :
    (s ++ l).dropWhile p = s ++ l := by
  rw [List.dropWhile_append, hs]
  simp [hne]

theorem clean_append_clean {a b : List Char} (ha : Clean a) (hb : Clean b)
    (mid : List Char) : Clean (a ++ mid ++ b) := by
  obtain ⟨hane, ha1, ha2⟩ := ha
  obtain ⟨hbne, hb1, hb2⟩ := hb
  refine ⟨by simp [hane], ?_, ?_⟩
  · rw [List.append_assoc]
    exact dropWhile_append_of_self ha1 hane (mid ++ b)
  · have hrev : (a ++ mid ++ b).reverse = b.reverse ++ (mid.reverse ++ a.reverse) := by
      simp
    rw [hrev]
    exact dropWhile_append_of_self hb2 (by simp [hbne]) _

theorem mem_ws_of_trim_eq_nil {s : List Char} (h : trim s = []) :
    ∀ c ∈ s, isWsChar c = true := by
  unfold trim at h
  rw [List.reverse_eq_nil_iff] at h
  rw [List.dropWhile_eq_nil_iff] at h
  intro c hc
  have hsplit := List.takeWhile_append_dropWhile (p := isWsChar) (l := s)
  rw [← hsplit] at hc
  rcases List.mem_append.mp hc with h1 | h2
  · exact List.mem_takeWhile_imp h1
  · exact h c (by simp [h2])

theorem trim_eq_nil_of_all_ws {s : List Char} (h : ∀ c ∈ s, isWsChar c = true) :
    trim s = [] := by
  unfold trim
  rw [List.dropWhile_eq_nil_iff.mpr h]
  rfl

/-! ### The greedy accumulation loop -/
theorem chunkFold_jsep (m : Nat) :
    ∀ (ps : List (List Char)) (st : ChunkState),
    (∀ p ∈ ps, Clean p) → (st.cur = [] ∨ Clean st.cur) →
    jsep (finalChunks (ps.foldl (chunkStep m) st)) =
      jsep (st.chunks ++ (if st.cur = [] then [] else [st.cur]) ++ ps) := by
  intro ps
  induction ps with
  | nil =>
    intro st hps hcur
    rcases hcur with hnil | hcl
    · simp [finalChunks, hnil, trim]
    · simp [finalChunks, trim_of_clean hcl, hcl.1]
  | cons p ps ih =>
    intro st hps hcur
    have hp : Clean p := hps p (by simp)
    have hps' : ∀ q ∈ ps, Clean q := fun q hq => hps q (by simp [hq])
    rw [List.foldl_cons]
    by_cases hcond : st.tok + estimateTokens p > m ∧ st.cur ≠ []
    · have hcl : Clean st.cur := by
        rcases hcur with hnil | hcl
        · exact absurd hnil hcond.2
        · exact hcl
      have hstep : chunkStep m st p =
          ⟨st.chunks ++ [trim st.cur], p, estimateTokens p⟩ := by
        simp [chunkStep, hcond]
      rw [hstep, ih _ hps' (Or.inr hp)]
      rw [trim_of_clean hcl]
      show jsep (st.chunks ++ [st.cur] ++ (if p = [] then [] else [p]) ++ ps) = _
      rw [if_neg hp.1, if_neg hcond.2]
      congr 1
      simp
    · by_cases hnil : st.cur = []
      · have hstep : chunkStep m st p = ⟨st.chunks, p, st.tok + estimateTokens p⟩ := by
          unfold chunkStep
          rw [if_neg hcond]
          simp [hnil]
        rw [hstep, ih _ hps' (Or.inr hp)]
        show jsep (st.chunks ++ (if p = [] then [] else [p]) ++ ps) = _
        rw [if_neg hp.1, if_pos hnil]
        congr 1
        simp
      · have hcl : Clean st.cur := by
          rcases hcur with h0 | h
          · exact absurd h0 hnil
          · exact h
        have hstep : chunkStep m st p =
            ⟨st.chunks, st.cur ++ ['\n', '\n'] ++ p, st.tok + estimateTokens p⟩ := by
          unfold chunkStep
          rw [if_neg hcond, if_pos hnil]
        have hcl' : Clean (st.cur ++ ['\n', '\n'] ++ p) := clean_append_clean hcl hp _
        rw [hstep, ih _ hps' (Or.inr hcl')]
        show jsep (st.chunks ++
          (if st.cur ++ ['\n', '\n'] ++ p = [] then [] else [st.cur ++ ['\n', '\n'] ++ p]) ++ ps) = _
        rw [if_neg hcl'.1, if_neg hnil]
        have hlist : st.chunks ++ [st.cur ++ ['\n', '\n'] ++ p] ++ ps =
            st.chunks ++ (st.cur ++ '\n' :: '\n' :: p) :: ps := by
          simp
        rw [hlist, jsep_merge]
        congr 1
        simp

/-! ### Claim C2: splitter round-trip -/
/-- C2, counterexample: on input `"a\n\n\n\nb"` (estimated tokens above the
threshold 1), the splitter drops the whitespace-only middle paragraph, so
joining the chunks with the blank-line separator yields `"a\n\nb"`, not the
original text: the round-trip of the claim is not exact. -/
theorem spec_c2_counterexample :
    1 < estimateTokens ("a\n\n\n\nb".data) ∧
    chunkContent ("a\n\n\n\nb".data) 1 = ["a".data, "b".data] ∧
    jsep (chunkContent ("a\n\n\n\nb".data) 1) ≠ "a\n\n\n\nb".data := by
  refine ⟨by decide, by decide, by decide⟩

/-- C2, amended: for input text above the token threshold, concatenating the
splitter's chunks joined by the blank-line separator reproduces the text
exactly, provided every paragraph of the text is non-empty and free of
leading/trailing whitespace (so the splitter's paragraph filter and chunk
trimming are the identity). -/
theorem spec_c2_roundtrip (c : List Char) (m : Nat)
    (hbig : m < estimateTokens c)
    (hclean : ∀ seg ∈ splitParas c, Clean seg) :
    jsep (chunkContent c m) = c := by
  have hfilter : (splitParas c).filter (fun p => !(trim p).isEmpty) = splitParas c := by
    apply List.filter_eq_self.mpr
    intro p hp
    have hcl := hclean p hp
    rw [trim_of_clean hcl]
    simp [List.isEmpty_iff, hcl.1]
  have hkey : jsep (finalChunks ((splitParas c).foldl (chunkStep m) ⟨[], [], 0⟩)) = c := by
    rw [chunkFold_jsep m _ _ hclean (Or.inl rfl)]
    simpa using jsep_splitParas c
  have hne : finalChunks ((splitParas c).foldl (chunkStep m) ⟨[], [], 0⟩) ≠ [] := by
    intro h0
    rw [h0] at hkey
    simp only [jsep] at hkey
    rw [← hkey] at hbig
    simp [estimateTokens] at hbig
  simp only [chunkContent]
  rw [if_neg (by omega), hfilter, if_neg hne]
  exact hkey

/-- C2, witness: a concrete clean two-paragraph text above the threshold
round-trips exactly. -/
theorem spec_c2_roundtrip_witness :
    1 < estimateTokens ("aaaa\n\nbbbb".data) ∧
    jsep (chunkContent ("aaaa\n\nbbbb".data) 1) = "aaaa\n\nbbbb".data :=
  ⟨by decide, spec_c2_roundtrip ("aaaa\n\nbbbb".data) 1 (by decide) (by decide)⟩

/-! ### Claim C7: no empty chunks -/
theorem charSplit_mem_ne_nil :
    ∀ (fuel : Nat) (s : List Char) (size : Nat), ∀ ch ∈ charSplitAux fuel s size, ch ≠ [] := by
  intro fuel
  induction fuel with
  | zero => intro s size ch hch; simp [charSplitAux] at hch
  | succ f ih =>
    intro s size ch hch
    rw [charSplitAux] at hch
    split at hch
    · simp at hch
    · next hcond =>
      rw [List.mem_cons] at hch
      rcases hch with h1 | h2
      · subst h1
        intro h0
        rw [List.take_eq_nil_iff] at h0
        tauto
      · exact ih _ _ ch h2

theorem chunkFold_ne_nil (m : Nat) :
    ∀ (ps : List (List Char)) (st : ChunkState),
    (∀ p ∈ ps, trim p ≠ []) →
    (st.cur = [] ∨ trim st.cur ≠ []) →
    (∀ ch ∈ st.chunks, ch ≠ []) →
    ∀ ch ∈ finalChunks (ps.foldl (chunkStep m) st), ch ≠ [] := by
  intro ps
  induction ps with
  | nil =>
    intro st hps hcur hchunks ch hch
    unfold finalChunks at hch
    rcases List.mem_append.mp hch with h1 | h2
    · exact hchunks ch h1
    · split at h2
      · next htr =>
        rw [List.mem_singleton] at h2
        subst h2
        exact htr
      · simp at h2
  | cons p ps ih =>
    intro st hps hcur hchunks
    have hp : trim p ≠ [] := hps p (by simp)
    have hps' : ∀ q ∈ ps, trim q ≠ [] := fun q hq => hps q (by simp [hq])
    rw [List.foldl_cons]
    by_cases hcond : st.tok + estimateTokens p > m ∧ st.cur ≠ []
    · have htc : trim st.cur ≠ [] := by
        rcases hcur with hnil | h
        · exact absurd hnil hcond.2
        · exact h
      have hstep : chunkStep m st p =
          ⟨st.chunks ++ [trim st.cur], p, estimateTokens p⟩ := by
        unfold chunkStep
        rw [if_pos hcond]
      rw [hstep]
      apply ih _ hps' (Or.inr hp)
      intro ch hch
      rcases List.mem_append.mp hch with h1 | h2
      · exact hchunks ch h1
      · rw [List.mem_singleton] at h2
        subst h2
        exact htc
    · have hstep : chunkStep m st p =
          ⟨st.chunks, st.cur ++ (if st.cur ≠ [] then ['\n', '\n'] else []) ++ p,
            st.tok + estimateTokens p⟩ := by
        unfold chunkStep
        rw [if_neg hcond]
      rw [hstep]
      refine ih _ hps' (Or.inr ?_) hchunks
      intro h0
      apply hp
      apply trim_eq_nil_of_all_ws
      intro ch hch
      exact mem_ws_of_trim_eq_nil h0 ch (by simp [hch])

/-- C7, counterexample: the splitter maps the empty input text to a
singleton list containing the empty chunk (the fast path returns the whole
content, which is empty), so the claim fails on the empty input. -/
theorem spec_c7_counterexample :
    chunkContent [] 7000 = [[]] ∧ [] ∈ chunkContent [] 7000 := by
  refine ⟨by decide, by decide⟩

/-- C7, amended: for every non-empty input text, no chunk returned by the
splitter is the empty string (at any token threshold). -/
theorem spec_c7_nonempty (c : List Char) (m : Nat) (hc : c ≠ []) :
    ∀ ch ∈ chunkContent c m, ch ≠ [] := by
  intro ch hch
  by_cases hfast : estimateTokens c ≤ m
  · simp only [chunkContent, if_pos hfast] at hch
    rw [List.mem_singleton] at hch
    subst hch
    exact hc
  · simp only [chunkContent] at hch
    rw [if_neg hfast] at hch
    by_cases hnil :
        finalChunks (((splitParas c).filter (fun p => !(trim p).isEmpty)).foldl
          (chunkStep m) ⟨[], [], 0⟩) = []
    · rw [if_pos hnil] at hch
      exact charSplit_mem_ne_nil _ _ _ ch hch
    · rw [if_neg hnil] at hch
      refine chunkFold_ne_nil m _ ⟨[], [], 0⟩ ?_ (Or.inl rfl) (by simp) ch hch
      intro p hp
      have hpred := (List.mem_filter.mp hp).2
      intro h0
      rw [h0] at hpred
      simp at hpred

/-- C7, witness: the amended theorem evaluated on a small non-empty input. -/
theorem spec_c7_nonempty_witness :
    ("hi".data : List Char) ≠ [] ∧ "hi".data ∈ chunkContent ("hi".data) 7000 ∧
      "hi".data ≠ ([] : List Char) :=
  ⟨by decide, by decide, spec_c7_nonempty ("hi".data) 7000 (by decide) ("hi".data) (by decide)⟩

theorem charSplit_mem_length_le :
    ∀ (fuel : Nat) (s : List Char) (size : Nat),
      ∀ ch ∈ charSplitAux fuel s size, ch.length ≤ size := by
  intro fuel
  induction fuel with
  | zero => intro s size ch hch; simp [charSplitAux] at hch
  | succ f ih =>
    intro s size ch hch
    rw [charSplitAux] at hch
    split at hch
    · simp at hch
    · rw [List.mem_cons] at hch
      rcases hch with h1 | h2
      · subst h1
        exact List.length_take_le size s
      · exact ih _ _ ch h2

theorem goodChunk_of_group {S : List (List Char)} {m : Nat}
    {gcur : List (List Char)} (hgne : gcur ≠ [])
    (hg : ∀ p ∈ gcur, p ∈ S ∧ p ≠ [])
    (hbound : 2 ≤ gcur.length → sumTok gcur ≤ m) :
    GoodChunk S m (trim (jsep gcur)) := by
  refine ⟨gcur, hgne, fun p hp => (hg p hp).1, rfl, ?_⟩
  match gcur with
  | [] => exact absurd rfl hgne
  | [a] => exact Or.inl rfl
  | a :: b :: t => exact Or.inr (hbound (by simp))

theorem chunkFold_good (m : Nat) (S : List (List Char)) :
    ∀ (ps : List (List Char)) (st : ChunkState) (gcur : List (List Char)),
    (∀ p ∈ ps, p ∈ S ∧ p ≠ []) →
    (∀ p ∈ gcur, p ∈ S ∧ p ≠ []) →
    st.cur = jsep gcur →
    st.tok = sumTok gcur →
    (gcur = [] ↔ st.cur = []) →
    (2 ≤ gcur.length → sumTok gcur ≤ m) →
    (∀ ch ∈ st.chunks, GoodChunk S m ch) →
    ∀ ch ∈ finalChunks (ps.foldl (chunkStep m) st), GoodChunk S m ch := by
  intro ps
  induction ps with
  | nil =>
    intro st gcur hps hg hcur htok hiff hbound hchunks ch hch
    rw [List.foldl_nil] at hch
    unfold finalChunks at hch
    rcases List.mem_append.mp hch with h1 | h2
    · exact hchunks ch h1
    · split at h2
      · next htr =>
        rw [List.mem_singleton] at h2
        subst h2
        have hgne : gcur ≠ [] := by
          intro h0
          have hc0 : st.cur = [] := hiff.mp h0
          rw [hc0] at htr
          exact htr rfl
        rw [hcur]
        exact goodChunk_of_group hgne hg hbound
      · simp at h2
  | cons p ps ih =>
    intro st gcur hps hg hcur htok hiff hbound hchunks
    have hpS : p ∈ S ∧ p ≠ [] := hps p (by simp)
    have hps' : ∀ q ∈ ps, q ∈ S ∧ q ≠ [] := fun q hq => hps q (by simp [hq])
    rw [List.foldl_cons]
    by_cases hcond : st.tok + estimateTokens p > m ∧ st.cur ≠ []
    · have hgne : gcur ≠ [] := by
        intro h0
        exact hcond.2 (hiff.mp h0)
      have hstep : chunkStep m st p =
          ⟨st.chunks ++ [trim st.cur], p, estimateTokens p⟩ := by
        unfold chunkStep
        rw [if_pos hcond]
      rw [hstep]
      refine ih _ [p] hps' (by simp [hpS]) rfl (by simp [sumTok])
        (by simp [hpS.2]) (by simp) ?_
      intro ch hch
      rcases List.mem_append.mp hch with h1 | h2
      · exact hchunks ch h1
      · rw [List.mem_singleton] at h2
        subst h2
        rw [hcur]
        exact goodChunk_of_group hgne hg hbound
    · by_cases hnil : st.cur = []
      · have hg0 : gcur = [] := hiff.mpr hnil
        have htok0 : st.tok = 0 := by rw [htok, hg0]; rfl
        have hstep : chunkStep m st p = ⟨st.chunks, p, estimateTokens p⟩ := by
          unfold chunkStep
          rw [if_neg hcond]
          simp [hnil, htok0]
        rw [hstep]
        exact ih _ [p] hps' (by simp [hpS]) rfl (by simp [sumTok])
          (by simp [hpS.2]) (by simp) hchunks
      · have hgne : gcur ≠ [] := fun h0 => hnil (hiff.mp h0)
        have hle : st.tok + estimateTokens p ≤ m := by
          rcases Nat.lt_or_ge m (st.tok + estimateTokens p) with hlt | hge
          · exact absurd ⟨hlt, hnil⟩ hcond
          · exact hge
        have hstep : chunkStep m st p =
            ⟨st.chunks, st.cur ++ ['\n', '\n'] ++ p, st.tok + estimateTokens p⟩ := by
          unfold chunkStep
          rw [if_neg hcond, if_pos hnil]
        rw [hstep]
        refine ih _ (gcur ++ [p]) hps' ?_ ?_ ?_ ?_ ?_ hchunks
        · intro q hq
          rcases List.mem_append.mp hq with h1 | h2
          · exact hg q h1
          · rw [List.mem_singleton] at h2
            subst h2
            exact hpS
        · show st.cur ++ ['\n', '\n'] ++ p = jsep (gcur ++ [p])
          rw [hcur, jsep_append_singleton hgne]
          simp
        · show st.tok + estimateTokens p = sumTok (gcur ++ [p])
          rw [htok]
          simp [sumTok]
        · constructor
          · intro h0
            simp at h0
          · intro h0
            simp at h0
        · intro _
          show sumTok (gcur ++ [p]) ≤ m
          have : sumTok (gcur ++ [p]) = st.tok + estimateTokens p := by
            rw [htok]
            simp [sumTok]
          rw [this]
          exact hle

theorem goodChunk_mono {S T : List (List Char)} {m : Nat} {ch : List Char}
    (hsub : ∀ p ∈ S, p ∈ T) : GoodChunk S m ch → GoodChunk T m ch := by
  rintro ⟨g, h1, h2, h3, h4⟩
  exact ⟨g, h1, fun p hp => hsub p (h2 p hp), h3, h4⟩

/-- C3, counterexample: with threshold 2 the input `"aaaaaaaaaaaa"` (a single
paragraph of 3 estimated tokens, no blank lines) is returned as one chunk
that exceeds the token threshold and is not bounded by the hard character
fallback `floor(threshold * 3.5) = 7` either: the fallback only fires when
the paragraph filter leaves nothing, not for an oversized single paragraph. -/
theorem spec_c3_counterexample :
    chunkContent ("aaaaaaaaaaaa".data) 2 = ["aaaaaaaaaaaa".data] ∧
    ¬(estimateTokens ("aaaaaaaaaaaa".data) ≤ 2) ∧
    ¬(("aaaaaaaaaaaa".data : List Char).length ≤ 7 * 2 / 2) := by
  refine ⟨by decide, by decide, by decide⟩

/-- C3, amended: every chunk of the splitter is (a) the whole input on the
fast path, or (b) bounded by `floor(threshold * 3.5)` characters when the
hard character fallback fired, or (c) the trimmed join of a non-empty group
of input paragraphs that is either a single paragraph (unbounded: the loop
never splits inside a paragraph) or has paragraph-token sum at most the
threshold (the loop's counter tracks the sum of the per-paragraph estimates,
not the estimate of the joined chunk). -/
theorem spec_c3_bound (c : List Char) (m : Nat) :
    ∀ ch ∈ chunkContent c m,
      (estimateTokens c ≤ m ∧ ch = c) ∨ ch.length ≤ 7 * m / 2 ∨
        GoodChunk (splitParas c) m ch := by
  intro ch hch
  by_cases hfast : estimateTokens c ≤ m
  · simp only [chunkContent, if_pos hfast] at hch
    rw [List.mem_singleton] at hch
    exact Or.inl ⟨hfast, hch⟩
  · simp only [chunkContent] at hch
    rw [if_neg hfast] at hch
    by_cases hnil :
        finalChunks (((splitParas c).filter (fun p => !(trim p).isEmpty)).foldl
          (chunkStep m) ⟨[], [], 0⟩) = []
    · rw [if_pos hnil] at hch
      exact Or.inr (Or.inl (charSplit_mem_length_le _ _ _ ch hch))
    · rw [if_neg hnil] at hch
      have hps : ∀ p ∈ (splitParas c).filter (fun p => !(trim p).isEmpty),
          p ∈ (splitParas c).filter (fun p => !(trim p).isEmpty) ∧ p ≠ [] := by
        intro p hp
        refine ⟨hp, ?_⟩
        have hpred := (List.mem_filter.mp hp).2
        intro h0
        rw [h0] at hpred
        simp at hpred
        exact hpred rfl
      have hgood := chunkFold_good m ((splitParas c).filter (fun p => !(trim p).isEmpty))
        ((splitParas c).filter (fun p => !(trim p).isEmpty)) ⟨[], [], 0⟩ [] hps
        (by simp) rfl rfl (by simp) (by simp) (by simp) ch hch
      exact Or.inr (Or.inr (goodChunk_mono (fun p hp => (List.mem_filter.mp hp).1) hgood))

/-- C3, witness: the amended bound evaluated on a concrete two-paragraph
input above the threshold. -/
theorem spec_c3_bound_witness :
    "aaaa".data ∈ chunkContent ("aaaa\n\nbbbb".data) 1 ∧
    ((estimateTokens ("aaaa\n\nbbbb".data) ≤ 1 ∧ "aaaa".data = "aaaa\n\nbbbb".data) ∨
      ("aaaa".data : List Char).length ≤ 7 * 1 / 2 ∨
      GoodChunk (splitParas ("aaaa\n\nbbbb".data)) 1 ("aaaa".data)) :=
  ⟨by decide, spec_c3_bound ("aaaa\n\nbbbb".data) 1 ("aaaa".data) (by decide)⟩

/-! ### Claims C1 and C6: combiner behaviour -/
theorem jsDedupAux_subset [DecidableEq α] :
    ∀ (l seen : List α), ∀ x ∈ jsDedupAux l seen, x ∈ l := by
  intro l
  induction l with
  | nil => intro seen x hx; simp [jsDedupAux] at hx
  | cons a rest ih =>
    intro seen x hx
    rw [jsDedupAux] at hx
    split at hx
    · exact List.mem_cons_of_mem a (ih seen x hx)
    · rcases List.mem_cons.mp hx with h1 | h2
      · exact h1 ▸ List.mem_cons_self a rest
      · exact List.mem_cons_of_mem a (ih (a :: seen) x h2)

theorem jsDedupAux_nodup [DecidableEq α] :
    ∀ (l seen : List α), (jsDedupAux l seen).Nodup ∧ ∀ x ∈ jsDedupAux l seen, x ∉ seen := by
  intro l
  induction l with
  | nil => intro seen; simp [jsDedupAux]
  | cons a rest ih =>
    intro seen
    rw [jsDedupAux]
    split
    · exact ih seen
    · next hmem =>
      obtain ⟨hnd, hout⟩ := ih (a :: seen)
      refine ⟨List.nodup_cons.mpr ⟨fun hc => (hout a hc) (List.mem_cons_self a seen), hnd⟩, ?_⟩
      intro x hx
      rcases List.mem_cons.mp hx with h1 | h2
      · exact h1 ▸ hmem
      · exact fun hs => (hout x h2) (List.mem_cons_of_mem a hs)

theorem jsDedup_nodup [DecidableEq α] (l : List α) : (jsDedup l).Nodup :=
  (jsDedupAux_nodup l []).1

theorem jsDedup_subset [DecidableEq α] (l : List α) : ∀ x ∈ jsDedup l, x ∈ l :=
  jsDedupAux_subset l []

/-- C1, counterexample: the content-structure combiner, given zero results,
does not raise the "nothing to combine" error: it is a total function that
returns the placeholder structure `<p>No content processed</p>`. -/
theorem spec_c1_counterexample :
    combineContentStructureResults [] = "<p>No content processed</p>" := rfl

/-- C1, amended: on zero results the typesetting and refinement combiners
raise their explicit "no results to combine" errors, but the
content-structure combiner instead returns the placeholder string
`<p>No content processed</p>`. -/
theorem spec_c1_zero_results :
    combineTypesettingResults [] = Except.error ("No typesetting results to combine") ∧
    combineRefinementResults [] = Except.error ("No refinement results to combine") ∧
    combineContentStructureResults [] = "<p>No content processed</p>" :=
  ⟨rfl, rfl, rfl⟩

/-- C6, counterexample: with exactly one successful chunk the combiner
returns that result verbatim (`if results.length === 1 return results[0]`),
so a duplicated suggestion inside the single chunk survives and the combined
suggestion list is not duplicate-free. -/
theorem spec_c6_counterexample :
    combineTypesettingResults [dupResponse] = Except.ok dupResponse ∧
    ¬(okSuggestions (combineTypesettingResults [dupResponse])).Nodup := by
  refine ⟨rfl, by decide⟩

/-- C6, amended: for two or more results, the combined suggestion list is the
first-occurrence deduplication of all chunks' suggestions followed by the
chunk-count note, and it is duplicate-free provided no chunk itself suggested
exactly that note string; with a single result the combiner returns the
result verbatim, suggestions untouched. -/
theorem spec_c6_dedup (results : List TypesettingResponse)
    (h2 : 2 ≤ results.length)
    (hn : ∀ r ∈ results, chunkNote results.length ∉ r.suggestions) :
    (combineTypesettingResults results).isOk = true ∧
    (okSuggestions (combineTypesettingResults results)).Nodup := by
  match results, h2, hn with
  | r0 :: r1 :: rest, _, hn =>
    refine ⟨rfl, ?_⟩
    show (jsDedup ((r0 :: r1 :: rest).flatMap (fun r => r.suggestions)) ++
      [chunkNote (r0 :: r1 :: rest).length]).Nodup
    rw [List.nodup_append]
    refine ⟨jsDedup_nodup _, List.nodup_singleton _, ?_⟩
    intro x hx hx2
    rw [List.mem_singleton] at hx2
    subst hx2
    obtain ⟨r, hr, hrs⟩ := List.mem_flatMap.mp (jsDedup_subset _ _ hx)
    exact hn r hr hrs

/-- C6, witness: the amended dedup property evaluated on two overlapping
concrete results. -/
theorem spec_c6_dedup_witness :
    (combineTypesettingResults [overlapA, overlapB]).isOk = true ∧
    (okSuggestions (combineTypesettingResults [overlapA, overlapB])).Nodup :=
  spec_c6_dedup [overlapA, overlapB] (by decide) (by decide)

/-- C8, counterexample: on the truncated input `{"a": "x}"` the string
pattern matches (`"a": "x}"` is a complete string property), the truncation
point keeps the whole input, and because a `}` inside the string literal is
counted, `missingBraces = 1 - 1 = 0`; the code still appends one `}` and the
result has two `}` against one `{`: the output is not brace-balanced. -/
theorem spec_c8_counterexample :
    repairTruncatedJson ("\x7b\"a\": \"x\x7d\"".data) =
      Except.ok ("\x7b\"a\": \"x\x7d\"\x7d".data) ∧
    ("\x7b\"a\": \"x\x7d\"\x7d".data).count '{' = 1 ∧
    ("\x7b\"a\": \"x\x7d\"\x7d".data).count '}' = 2 := by
  refine ⟨by decide, by decide, by decide⟩

/-- C8, amended: when the truncation-repair step succeeds it appends
`max(1, opening - closing)` closing braces to the truncated prefix; this
balances the braces exactly when the prefix has strictly more `{` than `}`
characters (the generic situation for truncated output), and otherwise
appends a single possibly-surplus `}`. -/
theorem spec_c8_balance (json t : List Char)
    (ht : truncTarget json = some t)
    (hgt : t.count '}' < t.count '{') :
    repairTruncatedJson json = Except.ok (closeBraces t) ∧
    (closeBraces t).count '{' = (closeBraces t).count '}' := by
  refine ⟨?_, ?_⟩
  · unfold repairTruncatedJson
    rw [ht]
  · unfold closeBraces
    simp [List.count_append, List.count_cons, List.count_replicate]
    omega

/-- C8, witness: the balance property evaluated on the truncated input
`{"a": "b"`. -/
theorem spec_c8_balance_witness :
    truncTarget ("\x7b\"a\": \"b\"".data) = some ("\x7b\"a\": \"b\"".data) ∧
    ("\x7b\"a\": \"b\"".data).count '}' < ("\x7b\"a\": \"b\"".data).count '{' ∧
    (repairTruncatedJson ("\x7b\"a\": \"b\"".data) =
        Except.ok (closeBraces ("\x7b\"a\": \"b\"".data)) ∧
      (closeBraces ("\x7b\"a\": \"b\"".data)).count '{' =
        (closeBraces ("\x7b\"a\": \"b\"".data)).count '}') :=
  ⟨by decide, by decide, spec_c8_balance _ _ (by decide) (by decide)⟩

/-! ### Pipeline support lemmas -/
theorem charSplit_ne_nil {s : List Char} (hs : s ≠ []) {size : Nat} (hsize : size ≠ 0) :
    charSplit s size ≠ [] := by
  unfold charSplit
  cases s with
  | nil => exact absurd rfl hs
  | cons c t =>
    simp only [List.length_cons]
    rw [charSplitAux]
    rw [if_neg (by simp [hsize])]
    simp

theorem chunkContent_ne_nil (c : List Char) (m : Nat) (hm : 1 ≤ m) :
    chunkContent c m ≠ [] := by
  by_cases hfast : estimateTokens c ≤ m
  · simp [chunkContent, hfast]
  · simp only [chunkContent, if_neg hfast]
    by_cases hnil :
        finalChunks (((splitParas c).filter (fun p => !(trim p).isEmpty)).foldl
          (chunkStep m) ⟨[], [], 0⟩) = []
    · rw [if_pos hnil]
      apply charSplit_ne_nil
      · intro h0
        rw [h0] at hfast
        have hz : estimateTokens ([] : List Char) = 0 := rfl
        rw [hz] at hfast
        omega
      · omega
    · rw [if_neg hnil]
      exact hnil

theorem combineTypesetting_isOk {results : List TypesettingResponse} (h : results ≠ []) :
    ∃ r, combineTypesettingResults results = Except.ok r := by
  match results with
  | [] => exact absurd rfl h
  | [r] => exact ⟨r, rfl⟩
  | r0 :: r1 :: rest => exact ⟨_, rfl⟩

theorem collectResults_length (chunks : List (List Char))
    (processor : List Char → Bool → Nat → Except String T)
    (hok : ∀ ch b i, ∃ r, processor ch b i = Except.ok r) :
    (collectResults chunks processor).length = chunks.length := by
  unfold collectResults
  have key : ∀ (l : List (Nat × List Char)) (acc : List T),
      (l.foldl (fun acc p =>
        match processor p.2 (decide (p.1 = chunks.length - 1)) p.1 with
        | Except.ok r => acc ++ [r]
        | Except.error _ => acc) acc).length = acc.length + l.length := by
    intro l
    induction l with
    | nil => intro acc; simp
    | cons p ps ih =>
      intro acc
      rw [List.foldl_cons]
      obtain ⟨r, hr⟩ := hok p.2 (decide (p.1 = chunks.length - 1)) p.1
      rw [hr, ih]
      simp
      omega
  rw [key]
  simp [List.enum_length]

theorem roundPct_le_90 {i n : Nat} (hi : i < n) : roundPct i n ≤ 90 := by
  unfold roundPct
  have hn : 0 < n := by omega
  have hdiv : (160 * i + n) / (2 * n) < 81 := by
    rw [Nat.div_lt_iff_lt_mul (by omega)]
    omega
  omega

theorem chainPcts (n : Nat) (h2 : 2 ≤ n) :
    List.Chain' (fun a b => a ≤ b)
      ((List.range n).map (fun i => roundPct i n) ++ [95, 100, 100]) := by
  rw [List.chain'_append]
  refine ⟨?_, by simp [List.chain'_cons], ?_⟩
  · rw [List.chain'_map]
    obtain ⟨k, rfl⟩ : ∃ k, n = k + 1 := ⟨n - 1, by omega⟩
    rw [List.chain'_range_succ]
    intro i hi
    unfold roundPct
    exact Nat.add_le_add_right (Nat.div_le_div_right (by omega)) 10
  · intro x hx y hy
    simp only [List.head?_cons, Option.mem_def, Option.some.injEq] at hy
    subst hy
    have hmem := List.mem_of_mem_getLast? hx
    obtain ⟨i, hi, rfl⟩ := List.mem_map.mp hmem
    have := roundPct_le_90 (List.mem_range.mp hi)
    omega

theorem typesettingProcessor_ok (request : TypesettingRequest) (model : Nat → ModelResult) :
    ∀ ch b i, ∃ r, typesettingProcessor request model ch b i = Except.ok r :=
  fun _ _ _ => ⟨_, rfl⟩

/-- Complete case analysis of `improveTypesetting`: it always resolves, and
its emitted percentages (with the route's terminal 100 appended) form a
non-decreasing chain. -/
theorem improveTypesetting_shape (request : TypesettingRequest) (clientAvailable : Bool)
    (model : Nat → ModelResult) :
    ∃ r evs, improveTypesetting request clientAvailable model = (Except.ok r, evs) ∧
      List.Chain' (fun a b => a ≤ b) (evs.map (fun e => e.percentage) ++ [100]) := by
  cases clientAvailable with
  | false =>
    exact ⟨createFallbackTypesetting request, [], rfl, by simp [List.chain'_cons]⟩
  | true =>
    simp only [improveTypesetting, Bool.not_true, if_neg (by decide : ¬(false = true))]
    simp only [processContentInChunks]
    by_cases hone : (chunkContent request.content 7000).length = 1
    · rw [if_pos hone]
      exact ⟨_, _, rfl, by simp [List.chain'_cons]⟩
    · rw [if_neg hone]
      have hne : chunkContent request.content 7000 ≠ [] :=
        chunkContent_ne_nil _ _ (by omega)
      have hlen2 : 2 ≤ (chunkContent request.content 7000).length := by
        have := List.length_pos.mpr hne
        omega
      have hres : (collectResults (chunkContent request.content 7000)
          (typesettingProcessor request model)).length =
          (chunkContent request.content 7000).length :=
        collectResults_length _ _ (typesettingProcessor_ok request model)
      have hresne : collectResults (chunkContent request.content 7000)
          (typesettingProcessor request model) ≠ [] := by
        intro h0
        rw [h0] at hres
        simp at hres
        omega
      obtain ⟨r, hr⟩ := combineTypesetting_isOk hresne
      rw [hr]
      refine ⟨r, _, rfl, ?_⟩
      simp only [chunkEvents, List.map_append, List.map_map, Function.comp, List.map_cons,
        List.map_nil, List.cons_append, List.nil_append, List.append_assoc]
      exact chainPcts _ hlen2

/-! ### Claim C5: progress event stream -/
/-- C5, confirmed: for every typesetting run (any request, any client
configuration, any per-chunk model outcomes) the route's event percentages
are non-decreasing, the stream is non-empty, every event before the last is
a non-terminal progress frame, and the single terminal frame is `complete`
with percentage 100 carrying the pipeline result (never an error: the
typesetting pipeline always resolves, so the route's error frame is dead
code for this task). -/
theorem spec_c5_progress (request : TypesettingRequest) (clientAvailable : Bool)
    (model : Nat → ModelResult) :
    List.Chain' (fun a b => a ≤ b) ((routeEvents request clientAvailable model).map pctOf) ∧
    (routeEvents request clientAvailable model).isEmpty = false ∧
    ((routeEvents request clientAvailable model).dropLast.all (fun e => !isTerminal e)) = true ∧
    (routeEvents request clientAvailable model).getLast? =
      some (RouteEvent.complete
        (okValue (createFallbackTypesetting request)
          (improveTypesetting request clientAvailable model).1) 100) := by
  obtain ⟨r, evs, heq, hchain⟩ := improveTypesetting_shape request clientAvailable model
  have hroute : routeEvents request clientAvailable model =
      evs.map RouteEvent.progress ++ [RouteEvent.complete r 100] := by
    unfold routeEvents
    rw [heq]
  refine ⟨?_, ?_, ?_, ?_⟩
  · rw [hroute]
    have hcomp : (evs.map RouteEvent.progress ++ [RouteEvent.complete r 100]).map pctOf =
        evs.map (fun e => e.percentage) ++ [100] := by
      simp [pctOf, List.map_map, Function.comp]
    rw [hcomp]
    exact hchain
  · rw [hroute]
    simp
  · rw [hroute, List.dropLast_concat, List.all_eq_true]
    intro e he
    obtain ⟨pe, -, rfl⟩ := List.mem_map.mp he
    rfl
  · rw [hroute, List.getLast?_concat, heq]
    rfl

/-! ### Claim C9: missing credentials -/
/-- C9, confirmed: with no configured client the pipeline returns the
deterministic fallback result immediately with no progress events; its
suggestion list carries the explicit service-unavailable notice; and the
outcome is independent of the model oracle, i.e. no model call can influence
it — chunking and dispatch are bypassed entirely. -/
theorem spec_c9_fallback (request : TypesettingRequest) (model : Nat → ModelResult) :
    improveTypesetting request false model =
      (Except.ok (createFallbackTypesetting request), []) ∧
    "Azure OpenAI service unavailable - using fallback formatting" ∈
      (createFallbackTypesetting request).suggestions ∧
    ∀ modelB : Nat → ModelResult,
      improveTypesetting request false model = improveTypesetting request false modelB := by
  refine ⟨rfl, ?_, fun modelB => rfl⟩
  simp [createFallbackTypesetting]

/-! ### Claim C10: totality of the typesetting entry point -/
/-- C10, confirmed: `improveTypesetting` always resolves with a successful
result — missing configuration, failed model calls and unrepairable
responses are all converted to fallback or partial results inside the
per-chunk processor — and since the per-chunk processor never throws, the
combiner receives exactly as many results as there are chunks. -/
theorem spec_c10_total (request : TypesettingRequest) (clientAvailable : Bool)
    (model : Nat → ModelResult) :
    (improveTypesetting request clientAvailable model).1.isOk = true ∧
    (collectResults (chunkContent request.content 7000)
        (typesettingProcessor request model)).length =
      (chunkContent request.content 7000).length := by
  obtain ⟨r, evs, heq, -⟩ := improveTypesetting_shape request clientAvailable model
  refine ⟨?_, collectResults_length _ _ (typesettingProcessor_ok request model)⟩
  rw [heq]
  rfl

set_option maxRecDepth 40000 in
/-- C4, counterexample: on a raw response that defeats the whole repair
ladder, the per-chunk processor does NOT surface a hard error to the
dispatcher: its own outer catch converts the internally raised error into
the fallback typesetting result, so the chunk contributes a (fallback)
result rather than being skipped. -/
theorem spec_c4_counterexample :
    (cleanJsonResponse ("not json at all".data)).isOk = false ∧
    fragmentExtract ("not json at all".data) = none ∧
    processTypesettingChunk reqEx 0 true (ModelResult.content ("not json at all".data)) =
      createFallbackTypesetting reqEx := by
  refine ⟨by decide, by decide, by decide⟩

/-- C4, amended: when the repair ladder (parse, fence stripping, truncation
repair, string sanitization) and the fragment extraction all fail, the
per-chunk processor raises the hard `Invalid JSON response from Azure
OpenAI` error internally, but its own surrounding catch converts it into
the fallback typesetting result; the chunk therefore still contributes a
result and the run continues — the dispatcher's skip logic exists but is
not exercised by this processor. -/
theorem spec_c4_ladder (request : TypesettingRequest) (raw : List Char)
    (chunkIndex : Nat) (isLast : Bool)
    (hclean : (cleanJsonResponse raw).isOk = false)
    (hfrag : fragmentExtract raw = none) :
    processTypesettingChunkInner request (ModelResult.content raw) =
      Except.error ("Invalid JSON response from Azure OpenAI") ∧
    processTypesettingChunk request chunkIndex isLast (ModelResult.content raw) =
      createFallbackTypesetting request := by
  have hinner : processTypesettingChunkInner request (ModelResult.content raw) =
      Except.error ("Invalid JSON response from Azure OpenAI") := by
    have hcl : ∃ e, cleanJsonResponse raw = Except.error e := by
      cases h : cleanJsonResponse raw with
      | ok c =>
        rw [h] at hclean
        simp [Except.isOk, Except.toBool] at hclean
      | error e => exact ⟨e, rfl⟩
    obtain ⟨e, hcl⟩ := hcl
    simp only [processTypesettingChunkInner]
    rw [hcl, hfrag]
  refine ⟨hinner, ?_⟩
  unfold processTypesettingChunk
  rw [hinner]

set_option maxRecDepth 40000 in
/-- C4, witness: the amended ladder behaviour evaluated on a concrete
unrepairable response. -/
theorem spec_c4_ladder_witness :
    (cleanJsonResponse ("model hiccup".data)).isOk = false ∧
    fragmentExtract ("model hiccup".data) = none ∧
    (processTypesettingChunkInner reqEx (ModelResult.content ("model hiccup".data)) =
        Except.error ("Invalid JSON response from Azure OpenAI") ∧
      processTypesettingChunk reqEx 2 false (ModelResult.content ("model hiccup".data)) =
        createFallbackTypesetting reqEx) :=
  ⟨by decide, by decide, spec_c4_ladder reqEx ("model hiccup".data) 2 false (by decide) (by decide)⟩
